import Mathlib

/-!
Shallow embedding of the weewx-nmea-xdr extension (files `bin/user/nmea-xdr.py`
and `nmea-xdr.py`): the `XDRThread.run` reader loop that frames, checksums and
filters NMEA 0183 sentences, and the `XDR.new_loop_packet` enrichment tick that
drains the hand-off queue into the loop packet.

Modelling conventions:
* Python `str` values are Lean `String`s; index/slice arithmetic is done on
  `String.data : List Char`.  Python slices `s[a:b]` clamp out-of-range bounds,
  which matches `(List.take b).drop a`.
* Python numeric parsing (`int(s, 16)`, `float(s)`) is embedded as executable
  parsers over the character codes, following CPython's accepted syntax
  (surrounding whitespace, optional sign, `0x` prefix for `int(·,16)`,
  underscore digit grouping, `inf`/`infinity`/`nan` for `float`).
* Machine floating point is outside the embedding: finite `float` values are
  modelled exactly as rationals, with `inf`, `-inf` and `nan` as explicit
  extra points.
* Statements that in Python raise an exception (`IndexError` from `line[0]` on
  an empty string, `TypeError` from `bytearray` applied to a decoded `str`)
  are modelled by an explicit exceptional result.
* The two reader variants diverge at the checksum computation.  The root
  variant `nmea-xdr.py` line 209 computes the byte-wise XOR fold
  `reduce(lambda cs, c: cs ^ ord(c), line[1:asterisk], 0)`, embedded as
  `xorFold` inside `processLine`.  The `bin/user` variant line 251 instead
  evaluates `reduce(operator.xor, bytearray(line[1:asterisk]), 0)`, and
  `bytearray` on a `str` without an encoding raises `TypeError` (on every
  span, the empty one included); only `ValueError` from the preceding `int`
  call is caught, so the exception is uncaught and the comparison, type
  filter and enqueue below it are unreachable.  That variant is embedded
  separately as `processLineBin`.
-/

namespace NmeaXdr

/-- Python `str.strip()` whitespace, restricted to the ASCII range the decoded
serial line can contain: space, tab, newline, vertical tab, form feed,
carriage return. -/
def isPyWs (c : Char) : Bool :=
  c.toNat = 32 || (9 ≤ c.toNat && c.toNat ≤ 13)

/-- Hexadecimal digit characters `0`-`9`, `a`-`f`, `A`-`F`. -/
def isHexDigit (c : Char) : Bool :=
  (48 ≤ c.toNat && c.toNat ≤ 57) ||
  (97 ≤ c.toNat && c.toNat ≤ 102) ||
  (65 ≤ c.toNat && c.toNat ≤ 70)

/-- Decimal digit characters `0`-`9`. -/
def isDecDigit (c : Char) : Bool :=
  48 ≤ c.toNat && c.toNat ≤ 57

/-- Numeric value of a hexadecimal digit character. -/
def hexVal (c : Char) : Nat :=
  if c.toNat ≤ 57 then c.toNat - 48
  else if 97 ≤ c.toNat then c.toNat - 87
  else c.toNat - 55

/-- Numeric value of a decimal digit character. -/
def decVal (c : Char) : Nat :=
  c.toNat - 48

/-- Python `str.strip()` with no argument: remove leading and trailing
whitespace. -/
def pyStripWs (cs : List Char) : List Char :=
  ((cs.dropWhile isPyWs).reverse.dropWhile isPyWs).reverse

/-- Continuation of a digit run in CPython's number grammar: after an initial
digit, further digits may follow, each optionally preceded by a single
underscore (PEP 515 digit grouping).  Returns the accumulated value, the
number of digits consumed so far, and the unconsumed remainder. -/
def digRun (isD : Char → Bool) (val : Char → Nat) (base : Nat) :
    Nat → Nat → List Char → Nat × Nat × List Char
  | acc, cnt, [] => (acc, cnt, [])
  | acc, cnt, c :: rest =>
    if isD c then digRun isD val base (acc * base + val c) (cnt + 1) rest
    else if c = '_' then
      match rest with
      | c2 :: rest2 =>
        if isD c2 then digRun isD val base (acc * base + val c2) (cnt + 1) rest2
        else (acc, cnt, c :: rest)
      | [] => (acc, cnt, c :: rest)
    else (acc, cnt, c :: rest)

/-- `digitpart` of CPython's number grammar: at least one digit, with optional
single underscores between digits. -/
def digitPart (isD : Char → Bool) (val : Char → Nat) (base : Nat) :
    List Char → Option (Nat × Nat × List Char)
  | c :: rest =>
    if isD c then some (digRun isD val base (val c) 1 rest) else none
  | [] => none

/-- Split an optional leading sign, as accepted by `int()` and `float()`
directly after stripped whitespace.  Returns `(negative, rest)`. -/
def pySign : List Char → Bool × List Char
  | '+' :: rest => (false, rest)
  | '-' :: rest => (true, rest)
  | cs => (false, cs)

/-- The part of `int(s, 16)` after sign handling: an optional `0x`/`0X`
prefix (an underscore may directly follow it), then a hex digit part. -/
def hexCore : List Char → Option (Nat × Nat × List Char)
  | '0' :: x :: rest =>
    if x = 'x' || x = 'X' then
      match rest with
      | r :: rest2 =>
        if r = '_' then digitPart isHexDigit hexVal 16 rest2
        else digitPart isHexDigit hexVal 16 (r :: rest2)
      | [] => none
    else digitPart isHexDigit hexVal 16 ('0' :: x :: rest)
  | other => digitPart isHexDigit hexVal 16 other

/-- CPython `int(s, 16)`: optional surrounding whitespace, optional sign,
optional `0x`/`0X` prefix (an underscore may directly follow the prefix),
then at least one hex digit with optional single underscores between digits.
Returns `none` where CPython raises `ValueError`. -/
def pyIntHex (s : String) : Option Int :=
  let cs := pyStripWs s.data
  let sn := pySign cs
  match hexCore sn.2 with
  | some (v, _, []) => some (if sn.1 then -(v : Int) else (v : Int))
  | _ => none

/-- A CPython `float` value, with the finite values modelled exactly as
rationals (IEEE 754 rounding is outside the embedding). -/
inductive PyF where
  | finite (q : ℚ)
  | inf
  | neginf
  | nan
  deriving DecidableEq, Repr

/-- Lower-case an ASCII letter, for the case-insensitive `inf`/`nan` match. -/
def asciiLower (c : Char) : Char :=
  if 65 ≤ c.toNat && c.toNat ≤ 90 then Char.ofNat (c.toNat + 32) else c

/-- The finite rational denoted by sign, integer part, fractional digits and
decimal exponent. -/
def decValue (neg : Bool) (ip : Nat) (fv : Nat) (fc : Nat) (e : Int) : ℚ :=
  let mant : ℚ := (ip : ℚ) + (fv : ℚ) / (10 : ℚ) ^ fc
  let scaled : ℚ :=
    if 0 ≤ e then mant * (10 : ℚ) ^ e.toNat else mant / (10 : ℚ) ^ (-e).toNat
  if neg then -scaled else scaled

/-- CPython `float(s)`: optional surrounding whitespace, optional sign, then
either a case-insensitive `inf`, `infinity` or `nan`, or a decimal number
`[digitpart][.digitpart][e[sign]digitpart]` with at least one digit in the
mantissa, with PEP 515 underscore grouping inside each digit part.
Returns `none` where CPython raises `ValueError`. -/
def pyFloat (s : String) : Option PyF :=
  let cs := pyStripWs s.data
  let sn := pySign cs
  let low := sn.2.map asciiLower
  if low = ['i', 'n', 'f'] || low = ['i', 'n', 'f', 'i', 'n', 'i', 't', 'y'] then
    some (if sn.1 then PyF.neginf else PyF.inf)
  else if low = ['n', 'a', 'n'] then
    some PyF.nan
  else
    -- integer part (optional)
    let ipr : Option Nat × List Char :=
      match digitPart isDecDigit decVal 10 sn.2 with
      | some (v, _, rest) => (some v, rest)
      | none => (none, sn.2)
    -- fraction (optional); digits after the dot are optional only when an
    -- integer part is present ("1." parses, "." does not)
    let fr : Bool × Nat × Nat × List Char :=
      match ipr.2 with
      | '.' :: rest =>
        match digitPart isDecDigit decVal 10 rest with
        | some (v, c, rest2) => (true, v, c, rest2)
        | none => (true, 0, 0, rest)
      | other => (false, 0, 0, other)
    let hasDigits : Bool :=
      ipr.1.isSome || (fr.1 && fr.2.2.1 ≠ 0)
    if hasDigits then
      -- exponent (optional)
      let ex : Option (Int × List Char) :=
        match fr.2.2.2 with
        | 'e' :: rest | 'E' :: rest =>
          let esn := pySign rest
          match digitPart isDecDigit decVal 10 esn.2 with
          | some (v, _, rest2) =>
            some (if esn.1 then -(v : Int) else (v : Int), rest2)
          | none => none
        | other => some (0, other)
      match ex with
      | some (e, []) =>
        some (PyF.finite (decValue sn.1 (ipr.1.getD 0) fr.2.1 fr.2.2.1 e))
      | _ => none
    else none

/-- `f_data *= 1000.0` (nmea-xdr.py line 134): multiplication by the positive
literal `1000.0`, extended to the non-finite points as IEEE does. -/
def mulThousand : PyF → PyF
  | PyF.finite q => PyF.finite (q * 1000)
  | PyF.inf => PyF.inf
  | PyF.neginf => PyF.neginf
  | PyF.nan => PyF.nan

/-! ## The reader loop (`XDRThread.run`, nmea-xdr.py lines 186-219) -/

/-- Python `str.rfind`: index of the last occurrence of `c`, or `none` where
Python returns `-1`. -/
def pyRfind : List Char → Char → Option Nat
  | [], _ => none
  | c :: rest, t =>
    match pyRfind rest t with
    | some i => some (i + 1)
    | none => if c = t then some 0 else none

/-- The running XOR of a byte sequence, starting from `0`:
`reduce(lambda cs, c: cs ^ ord(c), line[1:asterisk], 0)`
(nmea-xdr.py line 209). -/
def xorFold (l : List Nat) : Nat :=
  l.foldl (fun a b => a ^^^ b) 0

/-- The character codes of `line[1:asterisk]`: the bytes strictly between the
start marker and the checksum separator. -/
def coveredBytes (line : String) (asterisk : Nat) : List Nat :=
  ((line.data.take asterisk).drop 1).map Char.toNat

/-- The text after the checksum separator, `line[asterisk+1:]`. -/
def checksumText (line : String) (asterisk : Nat) : String :=
  String.mk (line.data.drop (asterisk + 1))

/-- Outcome of one iteration of the reader loop body on a decoded line:
the line is dropped, the payload is enqueued, or an uncaught exception
propagates out of `run` (killing the thread). -/
inductive ReadResult where
  | exn
  | discard
  | enqueue (s : String)
  deriving DecidableEq, Repr

/-- The checksum locate / parse / verify steps of the root variant
(nmea-xdr.py lines 195-212), given that the frame check has passed: `True`
exactly when the line survives to the type filter.  The `bin/user` variant
has no such Boolean outcome: its verify step raises (see
`processLineBin`). -/
def checksumAccepts (line : String) : Bool :=
  match pyRfind line.data '*' with
  | none => false
  | some asterisk =>
    match pyIntHex (checksumText line asterisk) with
    | none => false
    | some expected => expected = (xorFold (coveredBytes line asterisk) : Int)

/-- One iteration of the reader loop body of the root variant
(nmea-xdr.py lines 186-219, with the `ord`-based checksum fold of line 209)
on the decoded, stripped text of one serial line.  The `bin/user` variant is
embedded separately as `processLineBin`.

* `line[0]` raises `IndexError` on the empty string (the result of a read
  timeout), modelled as `ReadResult.exn`;
* no `$` first character, no `*`, unparsable checksum text, checksum
  mismatch, or a sentence type other than `XDR` each `continue` with the
  line dropped;
* otherwise `line[:asterisk]` is pushed onto the hand-off queue. -/
def processLine (line : String) : ReadResult :=
  match line.data with
  | [] => ReadResult.exn
  | c0 :: _ =>
    if c0 ≠ '$' then ReadResult.discard
    else
      match pyRfind line.data '*' with
      | none => ReadResult.discard
      | some asterisk =>
        match pyIntHex (checksumText line asterisk) with
        | none => ReadResult.discard
        | some expected =>
          if expected ≠ (xorFold (coveredBytes line asterisk) : Int) then
            ReadResult.discard
          else if (line.data.take 6).drop 3 ≠ ['X', 'D', 'R'] then
            ReadResult.discard
          else ReadResult.enqueue (String.mk (line.data.take asterisk))

/-- The sequence of sentences the reader pushes onto the hand-off queue for a
given sequence of decoded lines.  An uncaught exception ends the thread, so
nothing after it is enqueued. -/
def readerRun : List String → List String
  | [] => []
  | l :: rest =>
    match processLine l with
    | ReadResult.enqueue s => s :: readerRun rest
    | ReadResult.discard => readerRun rest
    | ReadResult.exn => []

/-- One iteration of the reader loop body of the `bin/user` variant
(bin/user/nmea-xdr.py lines 229-261).  It matches `processLine` through the
frame check, the separator search and the checksum parse (whose `ValueError`
is caught, line 246), but the checksum computation at line 251,
`reduce(operator.xor, bytearray(line[1:asterisk]), 0)`, constructs
`bytearray` from a decoded `str` without an encoding, which raises an
uncaught `TypeError` whatever the span holds — so every line whose checksum
text parses kills the thread, and the comparison, type filter and enqueue at
lines 253-261 are unreachable. -/
def processLineBin (line : String) : ReadResult :=
  match line.data with
  | [] => ReadResult.exn
  | c0 :: _ =>
    if c0 ≠ '$' then ReadResult.discard
    else
      match pyRfind line.data '*' with
      | none => ReadResult.discard
      | some asterisk =>
        match pyIntHex (checksumText line asterisk) with
        | none => ReadResult.discard
        | some _ => ReadResult.exn

/-! ## The enrichment tick (`XDR.new_loop_packet`, nmea-xdr.py lines 96-145) -/

/-- `weewx.units.ValueTuple(f_data, unit, group)` as built at
nmea-xdr.py line 141: the value with its unit and unit group, before
conversion into the packet's unit system. -/
structure ValueTuple where
  value : PyF
  unit : String
  group : String
  deriving DecidableEq, Repr

/-- The inner `for obs_type in self.sensor_map` loop (nmea-xdr.py lines
119-145) for one 4-tuple, returning in order the `(obs_type, ValueTuple)`
assignments it requests.  The sensor map is the dict's key/value pairs in
iteration order.  The loop variable `unit` is rebound by the unit
normalization (`unit = 'degree_C'` etc.), so the rebound value is what later
iterations compare against — the embedding threads it through the
recursion. -/
def innerLoop (sm : List (String × String)) (ttype data unit name : String) :
    List (String × ValueTuple) :=
  match sm with
  | [] => []
  | (obs, code) :: rest =>
    if code = ttype then
      match pyFloat data with
      | none => innerLoop rest ttype data unit name
      | some f =>
        if unit = "C" then
          (obs, ⟨f, "degree_C", "group_temperature"⟩) ::
            innerLoop rest ttype data "degree_C" name
        else if unit = "F" then
          (obs, ⟨f, "degree_F", "group_temperature"⟩) ::
            innerLoop rest ttype data "degree_F" name
        else if unit = "B" then
          (obs, ⟨mulThousand f, "mbar", "group_pressure"⟩) ::
            innerLoop rest ttype data "mbar" name
        else innerLoop rest ttype data unit name
    else innerLoop rest ttype data unit name

/-- Accumulating worker for `pySplit`: `acc` holds the current field
reversed. -/
def pySplitAux (sep : Char) : List Char → List Char → List String
  | acc, [] => [String.mk acc.reverse]
  | acc, c :: rest =>
    if c = sep then String.mk acc.reverse :: pySplitAux sep [] rest
    else pySplitAux sep (c :: acc) rest

/-- Python `str.split` with a one-character separator, as in
`xdr_line.split(',')` (nmea-xdr.py line 110): split into the (possibly
empty) fields between separator occurrences. -/
def pySplit (s : String) (sep : Char) : List String :=
  pySplitAux sep [] s.data

/-- `zip(*[it, it, it, it])` over `parts[1:]` (nmea-xdr.py lines 112-113):
group a list into consecutive 4-tuples, dropping a trailing partial group. -/
def group4 : List String → List (String × String × String × String)
  | a :: b :: c :: d :: rest => (a, b, c, d) :: group4 rest
  | _ => []

/-- Decode one queued sentence (nmea-xdr.py lines 110-116 with the body of
lines 119-145): split on `,`, drop the sentence-type prefix field, group into
4-tuples, and for each 4-tuple whose type, data and unit fields are non-empty
run the sensor-map loop.  The result lists the `(obs_type, ValueTuple)`
assignments in the order they are made. -/
def processSentence (sm : List (String × String)) (line : String) :
    List (String × ValueTuple) :=
  let parts := pySplit line ','
  (group4 (parts.drop 1)).foldl
    (fun acc t =>
      acc ++
        (if t.1 ≠ "" && t.2.1 ≠ "" && t.2.2.1 ≠ "" then
          innerLoop sm t.1 t.2.1 t.2.2.1 t.2.2.2
        else []))
    []

/-- The LOOP packet: its unit system `usUnits` and its observation fields.
The enricher mutates `fields` in place; the embedding passes the record
explicitly. -/
structure Packet where
  usUnits : Int
  fields : List (String × PyF)
  deriving DecidableEq, Repr

/-- Python dict assignment `d[k] = v`: replace in place, or append a new
key. -/
def setField (fs : List (String × PyF)) (k : String) (v : PyF) :
    List (String × PyF) :=
  match fs with
  | [] => [(k, v)]
  | (k0, v0) :: rest =>
    if k0 = k then (k, v) :: rest else (k0, v0) :: setField rest k v

/-- `weewx.units.convertStd` is an external collaborator: it takes the value,
its unit, its unit group and the target unit system, and returns the
converted value. -/
def Convert : Type :=
  PyF → String → String → Int → PyF

/-- `event.packet[obs_type] = target_t.value` with
`target_t = weewx.units.convertStd(val_t, event.packet['usUnits'])`
(nmea-xdr.py lines 141-145). -/
def applyReading (convert : Convert) (p : Packet) (a : String × ValueTuple) :
    Packet :=
  { p with
    fields :=
      setField p.fields a.1 (convert a.2.value a.2.unit a.2.group p.usUnits) }

/-- Process one popped sentence against the packet. -/
def enrichPacket (convert : Convert) (sm : List (String × String))
    (p : Packet) (line : String) : Packet :=
  (processSentence sm line).foldl (applyReading convert) p

/-- The backlog trim (nmea-xdr.py lines 101-102):
`while self.queue.qsize() > self.max_packets: self.queue.get_nowait()` —
pop and discard from the front while the depth exceeds `max_packets`.
The queue list is ordered oldest first. -/
def trimLoop (maxP : Nat) : List String → List String
  | [] => []
  | x :: rest =>
    if rest.length + 1 > maxP then trimLoop maxP rest else x :: rest

theorem trimLoop_length_le (maxP : Nat) (q : List String) :
    (trimLoop maxP q).length ≤ q.length := by
  induction q with
  | nil => simp [trimLoop]
  | cons x rest ih =>
    simp only [trimLoop]
    split
    · exact Nat.le_trans ih (Nat.le_succ _)
    · simp

/-- The outer `while True` of `new_loop_packet` (nmea-xdr.py lines 99-145),
with no concurrent producer: trim the backlog, pop the next sentence
(returning on `queue.Empty`), process it, repeat. -/
def drainLoop (convert : Convert) (sm : List (String × String)) (maxP : Nat)
    (q : List String) (p : Packet) : Packet :=
  match h : trimLoop maxP q with
  | [] => p
  | x :: rest => drainLoop convert sm maxP rest (enrichPacket convert sm p x)
termination_by q.length
decreasing_by
  have hle := trimLoop_length_le maxP q
  rw [h] at hle
  simp at hle
  omega

/-- The 22 hexadecimal digit characters (codes 48-57, 97-102, 65-70), for
exhaustive checks over checksum digits. -/
def hexChars : List Char :=
  ((List.range 10).map fun i => Char.ofNat (48 + i)) ++
    ((List.range 6).map fun i => Char.ofNat (97 + i)) ++
    ((List.range 6).map fun i => Char.ofNat (65 + i))

/-! ## Helper lemmas about the XOR fold -/

theorem xor_eq_self_iff (a m : Nat) (h : a ^^^ m = a) : m = 0 := by
  have h2 : a ^^^ (a ^^^ m) = a ^^^ a := by rw [h]
  rwa [← Nat.xor_assoc, Nat.xor_self, Nat.zero_xor] at h2

theorem foldl_xor_init (a : Nat) (l : List Nat) :
    l.foldl (fun x y => x ^^^ y) a = a ^^^ xorFold l := by
  induction l generalizing a with
  | nil => simp [xorFold]
  | cons b l ih =>
    simp only [xorFold, List.foldl_cons] at *
    rw [ih (a ^^^ b), ih (0 ^^^ b), Nat.zero_xor, Nat.xor_assoc]

theorem xorFold_cons (b : Nat) (l : List Nat) :
    xorFold (b :: l) = b ^^^ xorFold l := by
  simpa only [xorFold, List.foldl_cons, Nat.zero_xor] using foldl_xor_init b l

/-- Replacing one element of the covered span by its XOR with a mask XORs the
whole fold with the mask. -/
theorem xorFold_set_xor (l : List Nat) (i m : Nat) (h : i < l.length) :
    xorFold (l.set i (l.get ⟨i, h⟩ ^^^ m)) = xorFold l ^^^ m := by
  induction l generalizing i with
  | nil => cases h
  | cons x xs ih =>
    cases i with
    | zero =>
      simp only [List.set_cons_zero, List.get, xorFold_cons]
      rw [Nat.xor_assoc, Nat.xor_comm m (xorFold xs), ← Nat.xor_assoc]
    | succ i =>
      have hi : i < xs.length := Nat.lt_of_succ_lt_succ h
      simp only [List.set_cons_succ, List.get, xorFold_cons]
      rw [ih i hi, ← Nat.xor_assoc]

/-! ## Helper lemmas about the backlog trim and the drain loop -/

theorem trimLoop_eq_drop (maxP : Nat) (q : List String) :
    trimLoop maxP q = q.drop (q.length - maxP) := by
  induction q with
  | nil => simp [trimLoop]
  | cons x rest ih =>
    simp only [trimLoop, List.length_cons]
    split
    · rename_i hgt
      have hstep : rest.length + 1 - maxP = (rest.length - maxP) + 1 := by omega
      rw [ih, hstep, List.drop_succ_cons]
    · rename_i hle
      have hz : rest.length + 1 - maxP = 0 := by omega
      rw [hz, List.drop_zero]

theorem trimLoop_of_le (maxP : Nat) (q : List String) (h : q.length ≤ maxP) :
    trimLoop maxP q = q := by
  rw [trimLoop_eq_drop]
  have hz : q.length - maxP = 0 := by omega
  rw [hz, List.drop_zero]

theorem trimLoop_length_le_max (maxP : Nat) (q : List String) :
    (trimLoop maxP q).length ≤ maxP := by
  rw [trimLoop_eq_drop, List.length_drop]
  omega

theorem drainLoop_unfold_nil (c : Convert) (sm : List (String × String))
    (maxP : Nat) (q : List String) (p : Packet) (h0 : trimLoop maxP q = []) :
    drainLoop c sm maxP q p = p := by
  rw [drainLoop]
  split
  · rfl
  · rename_i x rest heq
    rw [h0] at heq
    cases heq

theorem drainLoop_unfold_cons (c : Convert) (sm : List (String × String))
    (maxP : Nat) (q : List String) (p : Packet) (x : String)
    (rest : List String) (h0 : trimLoop maxP q = x :: rest) :
    drainLoop c sm maxP q p =
      drainLoop c sm maxP rest (enrichPacket c sm p x) := by
  rw [drainLoop]
  split
  · rename_i heq
    rw [h0] at heq
    cases heq
  · rename_i y ys heq
    rw [h0] at heq
    cases heq
    rfl

/-- The sentences the tick actually processes, in order, are exactly the
backlog after the trim. -/
theorem drainLoop_eq_foldl (c : Convert) (sm : List (String × String))
    (maxP : Nat) (q : List String) (p : Packet) :
    drainLoop c sm maxP q p =
      (trimLoop maxP q).foldl (enrichPacket c sm) p := by
  suffices H : ∀ n q p, List.length q ≤ n →
      drainLoop c sm maxP q p =
        (trimLoop maxP q).foldl (enrichPacket c sm) p from
    H q.length q p (Nat.le_refl _)
  intro n
  induction n with
  | zero =>
    intro q p hq
    have hqnil : q = [] := List.eq_nil_of_length_eq_zero (Nat.le_zero.mp hq)
    subst hqnil
    rw [drainLoop_unfold_nil c sm maxP [] p rfl]
    rfl
  | succ n ih =>
    intro q p hq
    cases h0 : trimLoop maxP q with
    | nil =>
      rw [drainLoop_unfold_nil c sm maxP q p h0]
      rfl
    | cons x rest =>
      rw [drainLoop_unfold_cons c sm maxP q p x rest h0]
      have hlen : rest.length ≤ n := by
        have hle := trimLoop_length_le maxP q
        rw [h0] at hle
        simp at hle
        omega
      have hrest : trimLoop maxP rest = rest := by
        apply trimLoop_of_le
        have hm := trimLoop_length_le_max maxP q
        rw [h0] at hm
        simp at hm
        omega
      rw [ih rest (enrichPacket c sm p x) hlen, hrest]
      rfl

/-! ## Helper lemmas about the sensor-map loop and `float` parsing -/

/-- A 4-tuple whose unit code is none of `C`, `F`, `B` requests no assignment,
whatever the sensor map contains. -/
theorem innerLoop_invalid_unit (sm : List (String × String)) (t d u n : String)
    (hC : u ≠ "C") (hF : u ≠ "F") (hB : u ≠ "B") :
    innerLoop sm t d u n = [] := by
  induction sm with
  | nil => rfl
  | cons e rest ih =>
    obtain ⟨obs, code⟩ := e
    simp only [innerLoop]
    split
    · cases hf : pyFloat d with
      | none => exact ih
      | some f => simp [hC, hF, hB, ih]
    · exact ih

/-- Every assignment a 4-tuple with unit code `B` requests carries the parsed
value multiplied by `1000` with unit `mbar` in `group_pressure`. -/
theorem innerLoop_unit_B (sm : List (String × String)) (t d n : String)
    (f : PyF) (hf : pyFloat d = some f) :
    ∀ a ∈ innerLoop sm t d "B" n,
      a.2 = ⟨mulThousand f, "mbar", "group_pressure"⟩ := by
  induction sm with
  | nil => intro a ha; simp [innerLoop] at ha
  | cons e rest ih =>
    obtain ⟨obs, code⟩ := e
    intro a ha
    simp only [innerLoop] at ha
    by_cases hc : code = t
    · rw [if_pos hc, hf] at ha
      have hmb : innerLoop rest t d "mbar" n = [] :=
        innerLoop_invalid_unit rest t d "mbar" n (by decide) (by decide)
          (by decide)
      simp [hmb] at ha
      rw [ha]
    · rw [if_neg hc] at ha
      exact ih a ha

theorem pyFloat_eval_1013 : pyFloat "1.013" = some (PyF.finite (1013 / 1000)) := by
  have h : decValue false 1 13 3 0 = 1013 / 1000 := by norm_num [decValue]
  calc pyFloat "1.013" = some (PyF.finite (decValue false 1 13 3 0)) := rfl
  _ = some (PyF.finite (1013 / 1000)) := by rw [h]

theorem pyFloat_eval_1e5 : pyFloat "1e5" = some (PyF.finite 100000) := by
  have h : decValue false 1 0 0 5 = 100000 := by
    norm_num [decValue]
    rfl
  calc pyFloat "1e5" = some (PyF.finite (decValue false 1 0 0 5)) := rfl
  _ = some (PyF.finite 100000) := by rw [h]

theorem pyFloat_eval_23_4 : pyFloat " 23.4 " = some (PyF.finite (117 / 5)) := by
  have h : decValue false 23 4 1 0 = 117 / 5 := by norm_num [decValue]
  calc pyFloat " 23.4 " = some (PyF.finite (decValue false 23 4 1 0)) := rfl
  _ = some (PyF.finite (117 / 5)) := by rw [h]

theorem pyFloat_eval_5 : pyFloat "5" = some (PyF.finite 5) := by
  have h : decValue false 5 0 0 0 = 5 := by norm_num [decValue]
  calc pyFloat "5" = some (PyF.finite (decValue false 5 0 0 0)) := rfl
  _ = some (PyF.finite 5) := by rw [h]

/-! ## Claim theorems -/

/-- C1: the spec requires every line not starting with `$` — including the
empty line a read timeout produces — to be discarded with the loop
continuing.  The code instead evaluates `line[0]`, which on the empty string
raises an uncaught `IndexError`, killing the reader thread: nothing after the
empty line is ever read or enqueued. -/
theorem C1_empty_line_raises :
    processLine "" = ReadResult.exn ∧
    readerRun ["", "$WIXDR,*7C"] = [] ∧
    processLine "hello" = ReadResult.discard := by decide

/-- In the root variant, checksum verification accepts exactly when the
parsed value equals the XOR fold of the covered span, and a single-bit flip
of any covered byte always changes the fold — so under that fold an accepted
line becomes rejected. -/
theorem checksumAccepts_iff_fold :
    (∀ (line : String) (ast : Nat) (v : Int),
        pyRfind line.data '*' = some ast →
        pyIntHex (checksumText line ast) = some v →
        (checksumAccepts line = true ↔
          v = (xorFold (coveredBytes line ast) : Int))) ∧
    (∀ (l : List Nat) (i k : Nat) (h : i < l.length), k < 8 →
        xorFold (l.set i (l.get ⟨i, h⟩ ^^^ 2 ^ k)) ≠ xorFold l) := by
  constructor
  · intro line ast v h1 h2
    simp [checksumAccepts, h1, h2]
  · intro l i k h hk heq
    rw [xorFold_set_xor l i (2 ^ k) h] at heq
    have h2 : (2 : Nat) ^ k = 0 := xor_eq_self_iff (xorFold l) (2 ^ k) heq
    exact (pow_pos (by norm_num : (0 : Nat) < 2) k).ne' h2

/-- Even under the root variant's fold, a bit flip does not always flip the
verification result: flipping bit 0 of the covered byte `A` of `$A*00`
yields `$@*00`, and verification rejects both. -/
theorem checksumAccepts_flip_rejected :
    String.mk ['$', Char.ofNat ('A'.toNat ^^^ 2 ^ 0), '*', '0', '0'] = "$@*00" ∧
    checksumAccepts "$A*00" = false ∧
    checksumAccepts "$@*00" = false := by decide

/-- C2: the claim describes the checksum verify step accepting iff the XOR
fold of the covered span equals the parsed value.  The cited code
(bin/user/nmea-xdr.py lines 242-254) never reaches a verification outcome:
as soon as the checksum text parses, line 251 raises `TypeError`
(`bytearray` on a `str` without an encoding), on matching (`$WIXDR,*7C`,
fold 124 = parsed 124) and mismatching (`$A*00`) checksums alike.  The root
variant evaluates the same two lines by the intended fold, accepting the
first and rejecting the second. -/
theorem C2_checksum_verify_crash :
    processLineBin "$WIXDR,*7C" = ReadResult.exn ∧
    processLineBin "$A*00" = ReadResult.exn ∧
    processLine "$WIXDR,*7C" = ReadResult.enqueue "$WIXDR," ∧
    processLine "$A*00" = ReadResult.discard := by decide

/-- C3 counterexample: the single-digit text `4` after the separator is not a
2-digit hexadecimal integer, yet `int(·, 16)` parses it (to `4`), and the
line `$04*4` passes the checksum steps with it. -/
theorem C3_counterexample :
    pyIntHex "4" = some 4 ∧ "4".length ≠ 2 ∧
    checksumAccepts "$04*4" = true := by decide

/-- C3 (amended): every 2-hex-digit text after the separator is accepted with
the value of its two digits, and a text `int(·, 16)` rejects makes the line
be discarded with the loop continuing; but acceptance is not limited to
2-digit texts (see the counterexample). -/
theorem C3_checksum_parse :
    (hexChars.all fun c1 => hexChars.all fun c2 =>
      pyIntHex (String.mk [c1, c2]) == some (16 * hexVal c1 + hexVal c2)) =
        true ∧
    (∀ (line : String) (c0 : Char) (tail : List Char) (ast : Nat),
        line.data = c0 :: tail → c0 = '$' →
        pyRfind line.data '*' = some ast →
        pyIntHex (checksumText line ast) = none →
        processLine line = ReadResult.discard) := by
  constructor
  · decide
  · intro line c0 tail ast hdata h0 hrf hparse
    simp only [processLine]
    rw [hdata] at hrf ⊢
    subst h0
    simp [hrf, hparse]

/-- C3 witness: the amended theorem applied to the line `$A*ZZ`, whose
checksum text `ZZ` is rejected by the parse. -/
theorem C3_checksum_parse_witness : processLine "$A*ZZ" = ReadResult.discard :=
  C3_checksum_parse.2 "$A*ZZ" '$' ['A', '*', 'Z', 'Z'] 2 (by decide) rfl
    (by decide) (by decide)

/-- C4: with `N` sentences queued and `N > max_packets`, the tick discards
the oldest `N − max_packets` without processing them and processes exactly
the newest `max_packets`, in their original relative order. -/
theorem C4_backlog_trim (convert : Convert) (sm : List (String × String))
    (maxP N : Nat) (q : List String) (p : Packet)
    (hN : q.length = N) (hgt : maxP < N) :
    drainLoop convert sm maxP q p =
      (q.drop (N - maxP)).foldl (enrichPacket convert sm) p ∧
    (q.drop (N - maxP)).length = maxP ∧
    (q.take (N - maxP)).length = N - maxP ∧
    q = q.take (N - maxP) ++ q.drop (N - maxP) := by
  subst hN
  refine ⟨?_, ?_, ?_, (List.take_append_drop _ q).symm⟩
  · rw [drainLoop_eq_foldl, trimLoop_eq_drop]
  · rw [List.length_drop]; omega
  · rw [List.length_take]; omega

/-- C4 witness: three queued sentences with `max_packets = 1`: only the
newest is processed. -/
theorem C4_backlog_trim_witness :
    drainLoop (fun v _ _ _ => v) [] 1 ["$a", "$b", "$c"] ⟨1, []⟩ =
      (["$a", "$b", "$c"].drop (3 - 1)).foldl
        (enrichPacket (fun v _ _ _ => v) []) ⟨1, []⟩ ∧
    ((["$a", "$b", "$c"] : List String).drop (3 - 1)).length = 1 ∧
    ((["$a", "$b", "$c"] : List String).take (3 - 1)).length = 3 - 1 ∧
    (["$a", "$b", "$c"] : List String) =
      ["$a", "$b", "$c"].take (3 - 1) ++ ["$a", "$b", "$c"].drop (3 - 1) :=
  C4_backlog_trim (fun v _ _ _ => v) [] 1 3 ["$a", "$b", "$c"] ⟨1, []⟩ rfl
    (by decide)

/-- C5: in the cited reader (bin/user/nmea-xdr.py lines 229-261) the
round-trip sentence is never accepted or enqueued: with the correctly
computed checksum `3D` and with the one-digit-wrong `2D` alike, the line
raises `TypeError` at the checksum computation of line 251 and the thread
dies.  The root variant realizes the claimed round trip: the correct
checksum enqueues the payload and every variant whose checksum is wrong by
one digit (either digit replaced by a hex digit of a different value) is
discarded with nothing enqueued. -/
theorem C5_roundtrip_crash :
    processLineBin "$WIXDR,C,23.4,C,TempAir*3D" = ReadResult.exn ∧
    processLineBin "$WIXDR,C,23.4,C,TempAir*2D" = ReadResult.exn ∧
    processLine "$WIXDR,C,23.4,C,TempAir*3D" =
      ReadResult.enqueue "$WIXDR,C,23.4,C,TempAir" ∧
    (hexChars.all fun c =>
      (hexVal c == 3) ||
        decide (processLine
            (String.mk ("$WIXDR,C,23.4,C,TempAir*".data ++ [c, 'D'])) =
          ReadResult.discard)) = true ∧
    (hexChars.all fun c =>
      (hexVal c == 13) ||
        decide (processLine
            (String.mk ("$WIXDR,C,23.4,C,TempAir*".data ++ ['3', c])) =
          ReadResult.discard)) = true := by decide

/-- C6: unit code `B` multiplies the parsed value by 1000 and normalizes to
`mbar` / `group_pressure` before conversion (`1.013` becomes exactly `1013`
millibar in the rational model); any unit code outside `C`, `F`, `B` makes
the reading request no assignment at all, whatever the sensor map is. -/
theorem C6_unit_normalization :
    (∀ (sm : List (String × String)) (t d n : String) (f : PyF),
        pyFloat d = some f →
        ∀ a ∈ innerLoop sm t d "B" n,
          a.2 = ⟨mulThousand f, "mbar", "group_pressure"⟩) ∧
    pyFloat "1.013" = some (PyF.finite (1013 / 1000)) ∧
    mulThousand (PyF.finite (1013 / 1000)) = PyF.finite 1013 ∧
    (∀ (sm : List (String × String)) (t d u n : String),
        u ≠ "C" → u ≠ "F" → u ≠ "B" → innerLoop sm t d u n = []) :=
  ⟨fun sm t d n f hf => innerLoop_unit_B sm t d n f hf,
   pyFloat_eval_1013,
   by norm_num [mulThousand],
   fun sm t d u n hC hF hB => innerLoop_invalid_unit sm t d u n hC hF hB⟩

/-- C6 witness: a pressure reading `1.013 B` through a matching sensor map
produces only `mbar` / `group_pressure` assignments of the thousandfold
value; a reading with unit `K` produces none. -/
theorem C6_unit_normalization_witness :
    (∀ a ∈ innerLoop [("pressure", "P")] "P" "1.013" "B" "Baro",
        a.2 = ⟨mulThousand (PyF.finite (1013 / 1000)), "mbar",
          "group_pressure"⟩) ∧
    innerLoop [("outTemp", "C")] "C" "20" "K" "T" = [] :=
  ⟨C6_unit_normalization.1 [("pressure", "P")] "P" "1.013" "Baro"
      (PyF.finite (1013 / 1000)) pyFloat_eval_1013,
   C6_unit_normalization.2.2.2 [("outTemp", "C")] "C" "20" "K" "T"
      (by decide) (by decide) (by decide)⟩

/-- In the root variant, a line that passes the frame, separator and
checksum steps but is shorter than 6 characters is discarded at the type
filter (Python's clamping slice `line[3:6]` cannot equal `XDR`), with no
out-of-range access. -/
theorem processLine_short_discard (line : String) (ast : Nat) (v : Int)
    (hlen : line.data.length < 6)
    (hhead : line.data.head? = some '$')
    (hrf : pyRfind line.data '*' = some ast)
    (hparse : pyIntHex (checksumText line ast) = some v)
    (hsum : v = (xorFold (coveredBytes line ast) : Int)) :
    processLine line = ReadResult.discard := by
  cases hd : line.data with
  | nil => rw [hd] at hhead; cases hhead
  | cons c0 tail =>
    have hc0 : c0 = '$' := by
      rw [hd] at hhead
      simpa using hhead
    simp only [processLine]
    rw [hd] at hrf ⊢
    subst hc0
    simp [hrf, hparse, hsum]
    intro hEq
    have h3 : (List.drop 2 (List.take 5 tail)).length = 3 := by rw [hEq]; rfl
    rw [List.length_drop, List.length_take] at h3
    rw [hd, List.length_cons] at hlen
    omega

/-- C7: the cited type filter (bin/user/nmea-xdr.py lines 256-258) is
unreachable in that file: the 5-character line `$04*4`, which passes the
frame, separator and checksum-parse steps (and whose fold of `04` is 4,
matching), raises `TypeError` at the checksum computation of line 251
instead of reaching the filter.  The root variant discards such short lines
at the type filter without faulting, as `processLine_short_discard` proves
in general. -/
theorem C7_short_line_crash :
    processLineBin "$04*4" = ReadResult.exn ∧
    processLine "$04*4" = ReadResult.discard := by decide

/-- C8: a tick on an empty queue returns the packet entirely unchanged. -/
theorem C8_empty_queue_noop (convert : Convert) (sm : List (String × String))
    (maxP : Nat) (p : Packet) : drainLoop convert sm maxP [] p = p :=
  drainLoop_unfold_nil convert sm maxP [] p rfl

/-- C10: the data field is skipped exactly when CPython `float` parsing
rejects it; `inf`, `nan`, `1e5` and whitespace-padded numbers parse, and a
`nan` reading with unit `C` through a matching sensor map entry assigns the
converted NaN value to the mapped record field. -/
theorem C10_float_parse :
    pyFloat "inf" = some PyF.inf ∧
    pyFloat "nan" = some PyF.nan ∧
    pyFloat "1e5" = some (PyF.finite 100000) ∧
    pyFloat " 23.4 " = some (PyF.finite (117 / 5)) ∧
    (∀ (obs t d n : String), pyFloat d = none →
        innerLoop [(obs, t)] t d "C" n = []) ∧
    (∀ (obs t d n : String) (f : PyF), pyFloat d = some f →
        innerLoop [(obs, t)] t d "C" n =
          [(obs, ⟨f, "degree_C", "group_temperature"⟩)]) ∧
    processSentence [("outTemp", "C")] "$WIXDR,C,nan,C,TempAir" =
      [("outTemp", ⟨PyF.nan, "degree_C", "group_temperature"⟩)] ∧
    (∀ (convert : Convert) (p : Packet),
        (enrichPacket convert [("outTemp", "C")] p
            "$WIXDR,C,nan,C,TempAir").fields =
          setField p.fields "outTemp"
            (convert PyF.nan "degree_C" "group_temperature" p.usUnits)) := by
  refine ⟨by decide, by decide, pyFloat_eval_1e5, pyFloat_eval_23_4, ?_, ?_,
    by decide, ?_⟩
  · intro obs t d n h
    simp [innerLoop, h]
  · intro obs t d n f h
    simp [innerLoop, h]
  · intro convert p
    have h7 : processSentence [("outTemp", "C")] "$WIXDR,C,nan,C,TempAir" =
        [("outTemp", ⟨PyF.nan, "degree_C", "group_temperature"⟩)] := by decide
    rw [enrichPacket, h7]
    rfl

/-- C10 witness: an unparsable data field is skipped; a parsable one is
assigned. -/
theorem C10_float_parse_witness :
    innerLoop [("o", "T")] "T" "zz" "C" "n" = [] ∧
    innerLoop [("o", "T")] "T" "5" "C" "n" =
      [("o", ⟨PyF.finite 5, "degree_C", "group_temperature"⟩)] :=
  ⟨C10_float_parse.2.2.2.2.1 "o" "T" "zz" "n" (by decide),
   C10_float_parse.2.2.2.2.2.1 "o" "T" "5" "n" (PyF.finite 5) pyFloat_eval_5⟩


/-! ## Helper lemmas for the enqueue invariant (C9) -/

theorem pyRfind_some (l : List Char) (t : Char) (i : Nat)
    (h : pyRfind l t = some i) : i < l.length ∧ l[i]? = some t := by
  induction l generalizing i with
  | nil => cases h
  | cons c rest ih =>
    simp only [pyRfind] at h
    cases hr : pyRfind rest t with
    | some j =>
      rw [hr] at h
      injection h with h'
      subst h'
      obtain ⟨hlt, hget⟩ := ih j hr
      exact ⟨Nat.succ_lt_succ hlt, by simpa using hget⟩
    | none =>
      rw [hr] at h
      by_cases hct : c = t
      · rw [if_pos hct] at h
        injection h with h'
        subst h'
        simp [hct]
      · rw [if_neg hct] at h
        cases h

theorem dropWhile_mem (p : Char → Bool) (l : List Char) :
    ∀ c ∈ l, c ∈ l.dropWhile p ∨ p c = true := by
  induction l with
  | nil => intro c hc; cases hc
  | cons x rest ih =>
    intro c hc
    by_cases hp : p x = true
    · rw [List.dropWhile_cons_of_pos hp]
      rcases List.mem_cons.mp hc with h | h
      · subst h; right; exact hp
      · exact ih c h
    · rw [List.dropWhile_cons_of_neg hp]
      left; exact hc

theorem pyStripWs_mem (l : List Char) :
    ∀ c ∈ l, c ∈ pyStripWs l ∨ isPyWs c = true := by
  intro c hc
  rcases dropWhile_mem isPyWs l c hc with h1 | h1
  · rcases dropWhile_mem isPyWs (l.dropWhile isPyWs).reverse c
        (List.mem_reverse.mpr h1) with h2 | h2
    · left
      unfold pyStripWs
      exact List.mem_reverse.mpr h2
    · right; exact h2
  · right; exact h1

theorem digRun_cons (isD : Char → Bool) (val : Char → Nat)
    (base acc cnt : Nat) (x : Char) (rest : List Char) :
    digRun isD val base acc cnt (x :: rest) =
      if isD x then digRun isD val base (acc * base + val x) (cnt + 1) rest
      else if x = '_' then
        match rest with
        | c2 :: rest2 =>
          if isD c2 then
            digRun isD val base (acc * base + val c2) (cnt + 1) rest2
          else (acc, cnt, x :: rest)
        | [] => (acc, cnt, x :: rest)
      else (acc, cnt, x :: rest) := by
  rw [digRun.eq_def]

theorem digRun_mem (isD : Char → Bool) (val : Char → Nat) (base : Nat) :
    ∀ (l : List Char) (acc cnt : Nat), ∀ c ∈ l,
      c ∈ (digRun isD val base acc cnt l).2.2 ∨ isD c = true ∨ c = '_' := by
  suffices H : ∀ (n : Nat) (l : List Char), l.length ≤ n → ∀ (acc cnt : Nat),
      ∀ c ∈ l, c ∈ (digRun isD val base acc cnt l).2.2 ∨
        isD c = true ∨ c = '_' from
    fun l acc cnt => H l.length l (Nat.le_refl _) acc cnt
  intro n
  induction n with
  | zero =>
    intro l hl acc cnt c hc
    rw [List.eq_nil_of_length_eq_zero (Nat.le_zero.mp hl)] at hc
    cases hc
  | succ n ih =>
  intro l hl acc cnt c hc
  cases l with
  | nil => cases hc
  | cons x rest =>
    rw [digRun_cons]
    by_cases hx : isD x = true
    · rw [if_pos hx]
      rcases List.mem_cons.mp hc with h | h
      · subst h; right; left; exact hx
      · exact ih rest (by simp only [List.length_cons] at hl; omega) _ _ c h
    · rw [if_neg hx]
      by_cases hu : x = '_'
      · rw [if_pos hu]
        cases rest with
        | nil =>
          left
          simpa using hc
        | cons c2 rest2 =>
          change c ∈ (if isD c2 = true then
              digRun isD val base (acc * base + val c2) (cnt + 1) rest2
            else (acc, cnt, x :: c2 :: rest2)).2.2 ∨ isD c = true ∨ c = '_'
          by_cases h2 : isD c2 = true
          · rw [if_pos h2]
            rcases List.mem_cons.mp hc with h | h
            · subst h; right; right; exact hu
            · rcases List.mem_cons.mp h with h' | h'
              · subst h'; right; left; exact h2
              · exact ih rest2
                  (by simp only [List.length_cons] at hl; omega) _ _ c h'
          · rw [if_neg h2]
            left; exact hc
      · rw [if_neg hu]
        left; exact hc

theorem digitPart_mem (isD : Char → Bool) (val : Char → Nat) (base : Nat)
    (l : List Char) (v n : Nat)
    (h : digitPart isD val base l = some (v, n, [])) :
    ∀ c ∈ l, isD c = true ∨ c = '_' := by
  intro c hc
  cases l with
  | nil => cases hc
  | cons x rest =>
    simp only [digitPart] at h
    by_cases hx : isD x = true
    · rw [if_pos hx] at h
      injection h with h'
      rcases List.mem_cons.mp hc with he | he
      · subst he; left; exact hx
      · have hd := digRun_mem isD val base rest (val x) 1 c he
        rw [h'] at hd
        simpa using hd
    · rw [if_neg hx] at h
      cases h

theorem pySign_snd (cs : List Char) :
    (pySign cs).2 = cs ∨ (∃ r, cs = '+' :: r ∧ (pySign cs).2 = r) ∨
      (∃ r, cs = '-' :: r ∧ (pySign cs).2 = r) := by
  rw [pySign.eq_def]
  split
  · rename_i rest
    right; left
    exact ⟨rest, rfl, rfl⟩
  · rename_i rest
    right; right
    exact ⟨rest, rfl, rfl⟩
  · left; rfl

theorem hexCore_mem (l : List Char) (v n : Nat)
    (h : hexCore l = some (v, n, [])) :
    ∀ c ∈ l, c = 'x' ∨ c = 'X' ∨ c = '_' ∨ isHexDigit c = true := by
  rw [hexCore.eq_def] at h
  intro c hc
  split at h
  · rename_i x rest
    split at h
    · rename_i hcond
      have hchar : c = '0' ∨ c = x ∨ c ∈ rest := by
        rcases List.mem_cons.mp hc with he | he
        · left; exact he
        rcases List.mem_cons.mp he with he2 | he2
        · right; left; exact he2
        · right; right; exact he2
      have hx0 : c = '0' → (c = 'x' ∨ c = 'X' ∨ c = '_' ∨ isHexDigit c = true) := by
        intro he; subst he; right; right; right; decide
      have hxx : c = x → (c = 'x' ∨ c = 'X' ∨ c = '_' ∨ isHexDigit c = true) := by
        intro he; subst he
        rcases Bool.or_eq_true_iff.mp hcond with hcx | hcx
        · left; exact of_decide_eq_true hcx
        · right; left; exact of_decide_eq_true hcx
      rcases hchar with he | he | he
      · exact hx0 he
      · exact hxx he
      cases rest with
      | nil => cases he
      | cons r rest2 =>
        change (if r = '_' then digitPart isHexDigit hexVal 16 rest2
          else digitPart isHexDigit hexVal 16 (r :: rest2)) = some (v, n, []) at h
        split at h
        · rename_i hr
          have hsub := digitPart_mem isHexDigit hexVal 16 rest2 v n h
          rcases List.mem_cons.mp he with he2 | he2
          · subst he2; right; right; left; exact hr
          · rcases hsub c he2 with hh | hh
            · right; right; right; exact hh
            · right; right; left; exact hh
        · have hsub := digitPart_mem isHexDigit hexVal 16 (r :: rest2) v n h
          rcases hsub c he with hh | hh
          · right; right; right; exact hh
          · right; right; left; exact hh
    · have hsub := digitPart_mem isHexDigit hexVal 16 _ v n h
      rcases hsub c hc with hh | hh
      · right; right; right; exact hh
      · right; right; left; exact hh
  · have hsub := digitPart_mem isHexDigit hexVal 16 _ v n h
    rcases hsub c hc with hh | hh
    · right; right; right; exact hh
    · right; right; left; exact hh

theorem pyIntHex_chars (s : String) (v : Int) (h : pyIntHex s = some v) :
    ∀ c ∈ s.data, isPyWs c = true ∨ c = '+' ∨ c = '-' ∨ c = 'x' ∨ c = 'X' ∨
      c = '_' ∨ isHexDigit c = true := by
  intro c hc
  rcases pyStripWs_mem s.data c hc with h1 | h1
  case inr => left; exact h1
  simp only [pyIntHex] at h
  cases hcore : hexCore (pySign (pyStripWs s.data)).2 with
  | none => rw [hcore] at h; cases h
  | some t =>
    obtain ⟨v', n', rest⟩ := t
    cases rest with
    | cons r rs => rw [hcore] at h; cases h
    | nil =>
      have hmem := hexCore_mem (pySign (pyStripWs s.data)).2 v' n' hcore
      have hcls : c = '+' ∨ c = '-' ∨ c ∈ (pySign (pyStripWs s.data)).2 := by
        rcases pySign_snd (pyStripWs s.data) with hs | ⟨r, hr, hr2⟩ | ⟨r, hr, hr2⟩
        · right; right; rw [hs]; exact h1
        · rw [hr] at h1
          rcases List.mem_cons.mp h1 with he | he
          · left; exact he
          · right; right; rw [hr2]; exact he
        · rw [hr] at h1
          rcases List.mem_cons.mp h1 with he | he
          · right; left; exact he
          · right; right; rw [hr2]; exact he
      rcases hcls with hk | hk | hk
      · right; left; exact hk
      · right; right; left; exact hk
      · rcases hmem c hk with hh | hh | hh | hh
        · right; right; right; left; exact hh
        · right; right; right; right; left; exact hh
        · right; right; right; right; right; left; exact hh
        · right; right; right; right; right; right; exact hh


theorem slice36 (l : List Char) (h : (l.take 6).drop 3 = ['X', 'D', 'R']) :
    6 ≤ l.length ∧ l[3]? = some 'X' ∧ l[4]? = some 'D' ∧ l[5]? = some 'R' := by
  have hlen : ((l.take 6).drop 3).length = 3 := by rw [h]; rfl
  rw [List.length_drop, List.length_take] at hlen
  have h6 : 6 ≤ l.length := by omega
  have g0 : ((l.take 6).drop 3)[0]? = some 'X' := by rw [h]; rfl
  have g1 : ((l.take 6).drop 3)[1]? = some 'D' := by rw [h]; rfl
  have g2 : ((l.take 6).drop 3)[2]? = some 'R' := by rw [h]; rfl
  rw [List.getElem?_drop, List.getElem?_take_of_lt (by omega)] at g0 g1 g2
  exact ⟨h6, g0, g1, g2⟩

theorem processLine_enqueue (line s : String)
    (h : processLine line = ReadResult.enqueue s) :
    s.data.head? = some '$' ∧
    (s.data.take 6).drop 3 = ['X', 'D', 'R'] ∧
    6 ≤ s.data.length ∧
    ∃ ast, pyRfind line.data '*' = some ast ∧
      s.data = line.data.take ast := by
  rw [processLine.eq_def] at h
  cases hd : line.data with
  | nil => rw [hd] at h; cases h
  | cons c0 tail =>
    rw [hd] at h
    simp only [] at h
    split at h
    · cases h
    rename_i hnn
    have hc0 : c0 = '$' := not_not.mp hnn
    split at h
    · cases h
    rename_i ast hrf
    split at h
    · cases h
    rename_i v hparse
    split at h
    · cases h
    rename_i hsum0
    have hsum : v = (xorFold (coveredBytes line ast) : Int) := not_not.mp hsum0
    split at h
    · cases h
    rename_i htf0
    have htf : ((c0 :: tail).take 6).drop 3 = ['X', 'D', 'R'] := not_not.mp htf0
    injection h with hs
    have hsd : s.data = (c0 :: tail).take ast := by rw [← hs]
    obtain ⟨hastlt, hget⟩ := pyRfind_some (c0 :: tail) '*' ast hrf
    obtain ⟨h6, h3, h4, h5⟩ := slice36 (c0 :: tail) htf
    have hast6 : 6 ≤ ast := by
      by_contra hlt
      push_neg at hlt
      interval_cases ast
      · rw [List.getElem?_cons_zero] at hget
        injection hget with hget'
        rw [hc0] at hget'
        cases hget'
      · have hr5 : (line.data.drop 2)[3]? = some 'R' := by
          rw [List.getElem?_drop, hd]
          exact h5
        have hmem : 'R' ∈ (checksumText line 1).data :=
          List.getElem?_mem hr5
        have := pyIntHex_chars (checksumText line 1) v hparse 'R' hmem
        exact absurd this (by decide)
      · have hr5 : (line.data.drop 3)[2]? = some 'R' := by
          rw [List.getElem?_drop, hd]
          exact h5
        have hmem : 'R' ∈ (checksumText line 2).data :=
          List.getElem?_mem hr5
        have := pyIntHex_chars (checksumText line 2) v hparse 'R' hmem
        exact absurd this (by decide)
      · rw [h3] at hget
        cases hget
      · rw [h4] at hget
        cases hget
      · rw [h5] at hget
        cases hget
    refine ⟨?_, ?_, ?_, ast, hrf, hsd⟩
    · obtain ⟨k, hk⟩ : ∃ k, ast = k + 1 := ⟨ast - 1, by omega⟩
      rw [hsd, hk, List.take_succ_cons, List.head?_cons, hc0]
    · rw [hsd, List.take_take, Nat.min_eq_left hast6]
      exact htf
    · rw [hsd, List.length_take, Nat.min_eq_left (Nat.le_of_lt hastlt)]
      exact hast6

theorem readerRun_mem (lines : List String) (s : String)
    (h : s ∈ readerRun lines) :
    ∃ line ∈ lines, processLine line = ReadResult.enqueue s := by
  induction lines with
  | nil => cases h
  | cons l rest ih =>
    simp only [readerRun] at h
    cases hp : processLine l with
    | exn => rw [hp] at h; cases h
    | discard =>
      rw [hp] at h
      obtain ⟨line, hm, he⟩ := ih h
      exact ⟨line, List.mem_cons_of_mem _ hm, he⟩
    | enqueue s0 =>
      rw [hp] at h
      rcases List.mem_cons.mp h with he | he
      · subst he
        exact ⟨l, List.mem_cons_self _ _, hp⟩
      · obtain ⟨line, hm, he'⟩ := ih he
        exact ⟨line, List.mem_cons_of_mem _ hm, he'⟩


/-- C9: every string the reader enqueues, over any input line sequence,
starts with `$`, carries `XDR` at indices 3-5, has length at least 6, and is
some input line truncated at its last `*` (the checksum separator and
everything after it removed). -/
theorem C9_enqueue_invariant (lines : List String) (s : String)
    (h : s ∈ readerRun lines) :
    s.data.head? = some '$' ∧
    (s.data.take 6).drop 3 = ['X', 'D', 'R'] ∧
    6 ≤ s.data.length ∧
    ∃ line ∈ lines, ∃ ast, pyRfind line.data '*' = some ast ∧
      s.data = line.data.take ast := by
  obtain ⟨line, hm, he⟩ := readerRun_mem lines s h
  obtain ⟨h1, h2, h3, ast, h4, h5⟩ := processLine_enqueue line s he
  exact ⟨h1, h2, h3, line, hm, ast, h4, h5⟩

/-- C9 witness: the invariant instantiated on the run over the single line
`$WIXDR,*7C`, which enqueues `$WIXDR,`. -/
theorem C9_enqueue_invariant_witness :
    "$WIXDR,".data.head? = some '$' ∧
    ("$WIXDR,".data.take 6).drop 3 = ['X', 'D', 'R'] ∧
    6 ≤ "$WIXDR,".data.length ∧
    ∃ line ∈ ["$WIXDR,*7C"], ∃ ast, pyRfind line.data '*' = some ast ∧
      "$WIXDR,".data = line.data.take ast :=
  C9_enqueue_invariant ["$WIXDR,*7C"] "$WIXDR," (by decide)

end NmeaXdr
